import Mathlib

/-!
Verification of the CustomIC streaming packet framer and sample decoder
(Open Ephys "Custom IC Source" plugin).

The development shallowly embeds `CustomIC::ProtocolParser` and the
timestamping part of `CustomICThread` from `CustomICThread.cpp`:

* bytes are `Nat` values (< 256 where it matters),
* `std::vector<uint8_t> buffer` is a `List Nat`,
* `float` values (`scaleFactor`, decoded samples, timestamps) are modelled
  as exact rationals `ℚ` (the spec's round-trip property speaks about
  exact values),
* the `while` loop of `ProtocolParser::parse` is embedded as a
  fuel-indexed recursion `parseLoop`; `parse` runs it with fuel equal to
  the buffer length, and fuel-irrelevance (the loop consumes at least one
  byte per iteration) is proved as the termination theorem.
-/

namespace CustomIC

/-- Fixed retention cap of the frame buffer (`ProtocolParser::MAX_BUFFER_SIZE`). -/
def MAX_BUFFER_SIZE : Nat := 65536

/-- Decoded packet (`CustomIC::DataPacket`): one sample per channel, a
hardware timestamp slot (always set to 0 by `parse`), and a validity flag. -/
structure DataPacket where
  samples : List ℚ
  timestamp : Int
  valid : Bool
deriving DecidableEq, Repr

/-- State of `CustomIC::ProtocolParser`: the configuration members together
with the pending byte buffer.  Default values are the in-class member
initializers of the C++ class (`numChannels = 8`, `bytesPerSample = 2`,
`scaleFactor = 0.195f`, sync bytes `0xA0 0x5A`, `useChecksum = true`). -/
structure ParserState where
  numChannels : Nat := 8
  bytesPerSample : Nat := 2
  scaleFactor : ℚ := 39 / 200
  syncByte1 : Nat := 0xA0
  syncByte2 : Nat := 0x5A
  useChecksum : Bool := true
  buffer : List Nat := []
deriving DecidableEq, Repr

/-- A freshly constructed `ProtocolParser` (the constructor only reserves
capacity; every member keeps its initializer). -/
def initialParser : ParserState := {}

/-- `ProtocolParser::configure`. -/
def configure (st : ParserState) (channels bytes : Nat) (scale : ℚ) : ParserState :=
  { st with numChannels := channels, bytesPerSample := bytes, scaleFactor := scale }

/-- `ProtocolParser::setSyncBytes`. -/
def setSyncBytes (st : ParserState) (sync1 sync2 : Nat) : ParserState :=
  { st with syncByte1 := sync1, syncByte2 := sync2 }

/-- `ProtocolParser::getPacketSize`: Sync(2) + Data(channels * bytesPerSample)
+ Checksum(1 if enabled). -/
def getPacketSize (st : ParserState) : Nat :=
  2 + st.numChannels * st.bytesPerSample + (if st.useChecksum then 1 else 0)

/-- `ProtocolParser::reset`: clears the buffer. -/
def reset (st : ParserState) : ParserState :=
  { st with buffer := [] }

/-- Two's-complement reinterpretation of the low `w` bits of a machine word,
used to model the C casts to `int16_t` and the `int32_t` bit patterns. -/
def toSigned (w : Nat) (n : Nat) : Int :=
  if n % 2 ^ w < 2 ^ (w - 1) then ((n % 2 ^ w : Nat) : Int)
  else ((n % 2 ^ w : Nat) : Int) - 2 ^ w

/-- `ProtocolParser::bytesToSample`: big-endian signed decode of
`numBytes ∈ {2,3,4}` bytes, then linear scaling; any other width decodes
to 0.  The bit-level operations mirror the C source: width 2 casts the
16-bit pattern to `int16_t`; width 3 assembles 24 bits and sign-extends by
or-ing `0xFF000000` when bit 23 is set; width 4 assembles the full 32-bit
pattern.  `toSigned` models the reinterpretation of the resulting bit
pattern as `int32_t`. -/
def bytesToSample (bytes : List Nat) (numBytes : Nat) (scaleFactor : ℚ) : ℚ :=
  if numBytes = 2 then
    (toSigned 16 (bytes.getD 0 0 <<< 8 ||| bytes.getD 1 0) : ℚ) * scaleFactor
  else if numBytes = 3 then
    let raw : Nat := bytes.getD 0 0 <<< 16 ||| bytes.getD 1 0 <<< 8 ||| bytes.getD 2 0
    (toSigned 32 (if raw &&& 0x800000 ≠ 0 then raw ||| 0xFF000000 else raw) : ℚ) *
      scaleFactor
  else if numBytes = 4 then
    (toSigned 32 (bytes.getD 0 0 <<< 24 ||| bytes.getD 1 0 <<< 16 |||
      bytes.getD 2 0 <<< 8 ||| bytes.getD 3 0) : ℚ) * scaleFactor
  else 0

/-- `ProtocolParser::validateChecksum`: XOR of all bytes but the last must
equal the last byte. -/
def validateChecksum (packet : List Nat) (size : Nat) : Bool :=
  ((packet.take (size - 1)).foldl (fun checksum b => checksum ^^^ b) 0) ==
    packet.getD (size - 1) 0

/-- The sync search of `ProtocolParser::parse`: the first index `i` with
`i ≤ buffer.length - packetSize`, `buffer[i] = syncByte1` and
`buffer[i+1] = syncByte2` (the C `for` loop with `break`). -/
def findSync (st : ParserState) (buffer : List Nat) (packetSize : Nat) : Option Nat :=
  (List.range (buffer.length - packetSize + 1)).find? fun i =>
    buffer.getD i 0 == st.syncByte1 && buffer.getD (i + 1) 0 == st.syncByte2

/-- Payload decode of one aligned packet: sample `ch` is decoded from the
`bytesPerSample` bytes at offset `2 + ch * bytesPerSample` (the C code walks
`samplePtr` from `buffer.data() + 2`). -/
def decodePacket (st : ParserState) (buffer : List Nat) : DataPacket :=
  { samples := (List.range st.numChannels).map fun ch =>
      bytesToSample (buffer.drop (2 + ch * st.bytesPerSample)) st.bytesPerSample
        st.scaleFactor
    timestamp := 0
    valid := true }

/-- One `push_back` with the retention cap: if the buffer exceeds
`MAX_BUFFER_SIZE` after the push, the oldest byte is erased. -/
def pushCapped (buffer : List Nat) (b : Nat) : List Nat :=
  if MAX_BUFFER_SIZE < (buffer ++ [b]).length then (buffer ++ [b]).drop 1
  else buffer ++ [b]

/-- The byte-append phase of `ProtocolParser::parse`. -/
def appendCapped (buffer : List Nat) (data : List Nat) : List Nat :=
  data.foldl pushCapped buffer

/-- The packet-extraction `while` loop of `ProtocolParser::parse`, indexed by
fuel.  Each iteration either returns, or consumes at least one byte and
recurses, so fuel equal to the buffer length always suffices (proved in the
termination theorem below). -/
def parseLoop (st : ParserState) : Nat → List Nat → List DataPacket → List Nat × List DataPacket
  | 0, buffer, packets => (buffer, packets)
  | fuel + 1, buffer, packets =>
    if buffer.length < getPacketSize st then (buffer, packets)
    else
      match findSync st buffer (getPacketSize st) with
      | none =>
        (if 2 < buffer.length then buffer.drop (buffer.length - 2) else buffer, packets)
      | some syncPos =>
        let aligned := buffer.drop syncPos
        if aligned.length < getPacketSize st then (aligned, packets)
        else if st.useChecksum && !validateChecksum aligned (getPacketSize st) then
          parseLoop st fuel (aligned.drop 1) packets
        else
          parseLoop st fuel (aligned.drop (getPacketSize st))
            (packets ++ [decodePacket st aligned])

/-- `ProtocolParser::parse`: append the new bytes (bounded retention), then
extract packets in a loop. -/
def parse (st : ParserState) (data : List Nat) : ParserState × List DataPacket :=
  let buffer := appendCapped st.buffer data
  let result := parseLoop st buffer.length buffer []
  ({ st with buffer := result.1 }, result.2)

/-- A sequence of `parse` calls on consecutive chunks of a stream,
concatenating the returned packet sequences. -/
def parseChunks (st : ParserState) : List (List Nat) → ParserState × List DataPacket
  | [] => (st, [])
  | chunk :: rest =>
    let first := parse st chunk
    let later := parseChunks first.1 rest
    (later.1, first.2 ++ later.2)

/-- A byte list that is one complete wire packet for the configuration of
`st`: correct length, the two sync bytes in front, and a passing checksum. -/
def ValidPacket (st : ParserState) (p : List Nat) : Prop :=
  p.length = getPacketSize st ∧ p.getD 0 0 = st.syncByte1 ∧
  p.getD 1 0 = st.syncByte2 ∧ validateChecksum p (getPacketSize st) = true

instance (st : ParserState) (p : List Nat) : Decidable (ValidPacket st p) := by
  unfold ValidPacket
  infer_instance

/-- Big-endian two's-complement encoding of `value` in `width` bytes: the
test-harness encoder named by the spec's round-trip property ("encoding a
known integer value into width-byte big-endian two's-complement form").
Byte `k` (most significant first) is byte `width-1-k` of the value reduced
modulo `2^(8·width)`. -/
def encodeBE (value : Int) (width : Nat) : List Nat :=
  (List.range width).map fun k =>
    ((value % (2 ^ (8 * width) : Int)).toNat / 2 ^ (8 * (width - 1 - k))) % 256

/-- Acquisition-side state of `CustomICThread` used by `updateBuffer`:
the running sample counter and the first-timestamp anchor (`-1.0` is the
"not yet anchored" sentinel, as in the C++ member initializer). -/
structure AcqState where
  totalSamples : Nat
  initialTimestamp : ℚ
deriving DecidableEq, Repr

/-- The acquisition-state effect of `CustomICThread::startAcquisition`:
`totalSamples = 0`, `initialTimestamp = -1.0`. -/
def startAcquisition (_ : AcqState) : AcqState :=
  { totalSamples := 0, initialTimestamp := -1 }

/-- One iteration of the publication loop in `CustomICThread::updateBuffer`
for packet `i` of the current batch: compute the sample number
`totalSamples + i` and the timestamp `sampleNumber / sampleRate`, anchor
`initialTimestamp` on the first sample, and emit the pair of the sample
number and the session-relative timestamp `timestamp - initialTimestamp`. -/
def publishOne (sampleRate : ℚ) (st : AcqState) (i : Nat) : AcqState × Nat × ℚ :=
  let sampleNumber := st.totalSamples + i
  let timestamp : ℚ := (sampleNumber : ℚ) / sampleRate
  let anchored := if st.initialTimestamp < 0 then timestamp else st.initialTimestamp
  ({ st with initialTimestamp := anchored }, sampleNumber, timestamp - anchored)

/-- The whole packet-publication part of one `updateBuffer` call that decoded
`numPackets` packets: run `publishOne` for `i = 0 .. numPackets-1`, then add
`numPackets` to `totalSamples`. -/
def updateBufferPublish (sampleRate : ℚ) (st : AcqState) (numPackets : Nat) :
    AcqState × List (Nat × ℚ) :=
  let folded := (List.range numPackets).foldl
    (fun acc i =>
      let step := publishOne sampleRate acc.1 i
      (step.1, acc.2 ++ [step.2]))
    (st, [])
  ({ folded.1 with totalSamples := st.totalSamples + numPackets }, folded.2)

/-- A sequence of `updateBuffer` calls (each publishing the given number of
packets), concatenating everything published. -/
def runAcquisition (sampleRate : ℚ) (st : AcqState) : List Nat → AcqState × List (Nat × ℚ)
  | [] => (st, [])
  | n :: rest =>
    let u := updateBufferPublish sampleRate st n
    let v := runAcquisition sampleRate u.1 rest
    (v.1, u.2 ++ v.2)

/-- The acquisition state after `t` published samples: the anchor holds the
`-1` sentinel until the first sample is published and is `0` afterwards
(the first sample's timestamp is `0 / sampleRate = 0`). -/
def anchorState (t : Nat) : AcqState :=
  { totalSamples := t, initialTimestamp := if t = 0 then -1 else 0 }

/-- Example configuration: one channel of 16-bit samples, unit scale,
default sync bytes, checksum enabled, empty buffer (packet size 5). -/
def oneChannelParser : ParserState :=
  { numChannels := 1, bytesPerSample := 2, scaleFactor := 1, buffer := [] }

/-- Example configuration of the spec's worked examples: two channels of
16-bit samples, unit scale, default sync bytes, checksum enabled
(packet size 7). -/
def twoChannelParser : ParserState :=
  { numChannels := 2, bytesPerSample := 2, scaleFactor := 1, buffer := [] }

/-! ### Basic lemmas about the embedded operations -/

lemma two_le_getPacketSize (st : ParserState) : 2 ≤ getPacketSize st := by
  unfold getPacketSize; omega

lemma parseLoop_short (st : ParserState) (fuel : Nat) (buffer : List Nat)
    (acc : List DataPacket) (h : buffer.length < getPacketSize st) :
    parseLoop st fuel buffer acc = (buffer, acc) := by
  cases fuel with
  | zero => rfl
  | succ fuel => simp [parseLoop, h]

lemma findSync_zero (st : ParserState) (buffer : List Nat)
    (h0 : buffer.getD 0 0 = st.syncByte1) (h1 : buffer.getD 1 0 = st.syncByte2) :
    findSync st buffer (getPacketSize st) = some 0 := by
  unfold findSync
  obtain ⟨m, hm⟩ : ∃ m, buffer.length - getPacketSize st + 1 = m + 1 := ⟨_, rfl⟩
  rw [hm, List.range_succ_eq_map, List.find?_cons_of_pos]
  simp only [Nat.zero_add, h0, h1, beq_self_eq_true, Bool.and_self]

lemma findSync_mem (st : ParserState) (buffer : List Nat) (packetSize i : Nat)
    (hps : packetSize ≤ buffer.length)
    (h : findSync st buffer packetSize = some i) :
    i + packetSize ≤ buffer.length ∧
      buffer.getD i 0 = st.syncByte1 ∧ buffer.getD (i + 1) 0 = st.syncByte2 := by
  unfold findSync at h
  have hmem := List.mem_of_find?_eq_some h
  have hpred := List.find?_some h
  simp only [List.mem_range] at hmem
  simp only [Bool.and_eq_true, beq_iff_eq] at hpred
  exact ⟨by omega, hpred.1, hpred.2⟩

lemma appendCapped_nil (buffer : List Nat) : appendCapped buffer [] = buffer := rfl

lemma pushCapped_of_le (buffer : List Nat) (b : Nat)
    (h : buffer.length + 1 ≤ MAX_BUFFER_SIZE) : pushCapped buffer b = buffer ++ [b] := by
  unfold pushCapped
  rw [if_neg]
  simp
  omega

lemma appendCapped_eq_append (buffer data : List Nat)
    (h : buffer.length + data.length ≤ MAX_BUFFER_SIZE) :
    appendCapped buffer data = buffer ++ data := by
  induction data generalizing buffer with
  | nil => simp [appendCapped_nil]
  | cons x d ih =>
    show appendCapped (pushCapped buffer x) d = _
    rw [pushCapped_of_le buffer x (by simp at h; omega), ih]
    · simp
    · simp at h ⊢; omega

lemma pushCapped_length_le (buffer : List Nat) (b : Nat)
    (h : buffer.length ≤ MAX_BUFFER_SIZE) :
    (pushCapped buffer b).length ≤ MAX_BUFFER_SIZE := by
  unfold pushCapped
  split
  · simpa using h
  · rename_i hc
    simp only [List.length_append, List.length_singleton, Nat.not_lt] at hc
    simpa using hc

lemma appendCapped_length_le (buffer data : List Nat)
    (h : buffer.length ≤ MAX_BUFFER_SIZE) :
    (appendCapped buffer data).length ≤ MAX_BUFFER_SIZE := by
  induction data generalizing buffer with
  | nil => simpa [appendCapped_nil] using h
  | cons x d ih =>
    exact ih (pushCapped buffer x) (pushCapped_length_le buffer x h)

set_option maxRecDepth 4000 in
lemma appendCapped_fifo (buffer data : List Nat)
    (h : buffer.length ≤ MAX_BUFFER_SIZE) :
    appendCapped buffer data =
      (buffer ++ data).drop (buffer.length + data.length - MAX_BUFFER_SIZE) := by
  induction data generalizing buffer with
  | nil =>
    simp [appendCapped_nil, Nat.sub_eq_zero_of_le h]
  | cons x d ih =>
    show appendCapped (pushCapped buffer x) d = _
    rcases Nat.lt_or_ge buffer.length MAX_BUFFER_SIZE with hlt | hge
    · rw [pushCapped_of_le buffer x (by omega), ih (buffer ++ [x]) (by simp; omega)]
      have hi : (buffer ++ [x]).length + d.length - MAX_BUFFER_SIZE =
          buffer.length + (x :: d).length - MAX_BUFFER_SIZE := by
        simp; omega
      rw [hi, List.append_assoc]
      rfl
    · have hex : buffer.length = MAX_BUFFER_SIZE := by omega
      have hpush : pushCapped buffer x = (buffer ++ [x]).drop 1 := by
        unfold pushCapped
        rw [if_pos (by simp; omega)]
      rw [hpush, ih ((buffer ++ [x]).drop 1) (by simp; omega)]
      have h4 : (buffer ++ [x]).drop 1 ++ d = (buffer ++ x :: d).drop 1 := by
        cases buffer with
        | nil =>
          have hm : MAX_BUFFER_SIZE = 65536 := rfl
          simp at hex
          omega
        | cons b bs =>
          simp only [List.cons_append, List.drop_succ_cons, List.drop_zero,
            List.append_assoc, List.singleton_append, List.nil_append]
      rw [h4]
      have hidx : 1 + (((buffer ++ [x]).drop 1).length + d.length - MAX_BUFFER_SIZE)
          = buffer.length + (x :: d).length - MAX_BUFFER_SIZE := by
        simp
        omega
      rw [List.drop_drop, hidx]

lemma validateChecksum_append (p t : List Nat) (size : Nat)
    (hs : 1 ≤ size) (hlen : size ≤ p.length) :
    validateChecksum (p ++ t) size = validateChecksum p size := by
  unfold validateChecksum
  rw [List.take_append_eq_append_take,
    show size - 1 - p.length = 0 from by omega, List.take_zero,
    List.append_nil, List.getD_append _ _ _ _ (by omega)]

lemma bytesToSample_congr (xs ys : List Nat) (numBytes : Nat) (scale : ℚ)
    (h : ∀ j, j < numBytes → xs.getD j 0 = ys.getD j 0) :
    bytesToSample xs numBytes scale = bytesToSample ys numBytes scale := by
  unfold bytesToSample
  rcases eq_or_ne numBytes 2 with rfl | h2
  · rw [if_pos rfl, if_pos rfl, h 0 (by omega), h 1 (by omega)]
  rcases eq_or_ne numBytes 3 with rfl | h3
  · rw [if_neg h2, if_neg h2, if_pos rfl, if_pos rfl,
      h 0 (by omega), h 1 (by omega), h 2 (by omega)]
  rcases eq_or_ne numBytes 4 with rfl | h4
  · rw [if_neg h2, if_neg h2, if_neg h3, if_neg h3, if_pos rfl, if_pos rfl,
      h 0 (by omega), h 1 (by omega), h 2 (by omega), h 3 (by omega)]
  rw [if_neg h2, if_neg h2, if_neg h3, if_neg h3, if_neg h4, if_neg h4]

lemma getD_drop (l : List Nat) (i j : Nat) : (l.drop i).getD j 0 = l.getD (i + j) 0 := by
  simp [List.getD_eq_getElem?_getD, List.getElem?_drop]

lemma decodePacket_append (st : ParserState) (p t : List Nat)
    (h : 2 + st.numChannels * st.bytesPerSample ≤ p.length) :
    decodePacket st (p ++ t) = decodePacket st p := by
  unfold decodePacket
  simp only [DataPacket.mk.injEq, and_true]
  apply List.map_congr_left
  intro ch hch
  rw [List.mem_range] at hch
  apply bytesToSample_congr
  intro j hj
  rw [getD_drop, getD_drop, List.getD_eq_getElem?_getD, List.getD_eq_getElem?_getD,
    List.getElem?_append_left (by nlinarith [Nat.mul_le_mul_right st.bytesPerSample hch])]

lemma parseLoop_buffer_length_le (st : ParserState) (fuel : Nat) :
    ∀ (buffer : List Nat) (acc : List DataPacket),
      (parseLoop st fuel buffer acc).1.length ≤ buffer.length := by
  induction fuel with
  | zero => intro buffer acc; exact Nat.le_refl _
  | succ fuel ih =>
    intro buffer acc
    rw [parseLoop]
    split
    · exact Nat.le_refl _
    · rcases hfind : findSync st buffer (getPacketSize st) with _ | i
      · simp only
        split <;> simp
      · simp only
        split
        · simp
        · split
          · exact le_trans (ih _ _) (by simp)
          · exact le_trans (ih _ _) (by simp)

lemma payload_le_getPacketSize (st : ParserState) :
    2 + st.numChannels * st.bytesPerSample ≤ getPacketSize st := by
  unfold getPacketSize; omega

lemma parseLoop_succ_of_none (st : ParserState) (f : Nat) (buffer : List Nat)
    (acc : List DataPacket) (hlen : getPacketSize st ≤ buffer.length)
    (hfind : findSync st buffer (getPacketSize st) = none) :
    parseLoop st (f + 1) buffer acc =
      (if 2 < buffer.length then buffer.drop (buffer.length - 2) else buffer, acc) := by
  rw [parseLoop, if_neg (by omega), hfind]

lemma parseLoop_succ_of_checksum_fail (st : ParserState) (f : Nat) (buffer : List Nat)
    (acc : List DataPacket) (i : Nat)
    (hlen : getPacketSize st ≤ buffer.length)
    (hfind : findSync st buffer (getPacketSize st) = some i)
    (hi : i + getPacketSize st ≤ buffer.length)
    (hcs : (st.useChecksum && !validateChecksum (buffer.drop i) (getPacketSize st)) = true) :
    parseLoop st (f + 1) buffer acc = parseLoop st f ((buffer.drop i).drop 1) acc := by
  rw [parseLoop, if_neg (by omega), hfind]
  simp only
  rw [if_neg (by simp; omega), if_pos hcs]

lemma parseLoop_succ_of_emit (st : ParserState) (f : Nat) (buffer : List Nat)
    (acc : List DataPacket) (i : Nat)
    (hlen : getPacketSize st ≤ buffer.length)
    (hfind : findSync st buffer (getPacketSize st) = some i)
    (hi : i + getPacketSize st ≤ buffer.length)
    (hcs : (st.useChecksum && !validateChecksum (buffer.drop i) (getPacketSize st)) = false) :
    parseLoop st (f + 1) buffer acc =
      parseLoop st f ((buffer.drop i).drop (getPacketSize st))
        (acc ++ [decodePacket st (buffer.drop i)]) := by
  rw [parseLoop, if_neg (by omega), hfind]
  simp only
  rw [if_neg (by simp; omega), if_neg (by simp [hcs])]

/-- Draining a buffer that is a concatenation of valid packets followed by a
short remainder: the loop emits exactly the packets, in order, and leaves the
remainder. -/
lemma parseLoop_drain (st : ParserState) (pks : List (List Nat)) :
    ∀ (r : List Nat) (acc : List DataPacket) (fuel : Nat),
      (∀ p ∈ pks, ValidPacket st p) → r.length < getPacketSize st →
      pks.length ≤ fuel →
      parseLoop st fuel (pks.flatten ++ r) acc =
        (r, acc ++ pks.map (decodePacket st)) := by
  induction pks with
  | nil =>
    intro r acc fuel _ hr _
    simp only [List.flatten_nil, List.nil_append, List.map_nil, List.append_nil]
    exact parseLoop_short st fuel r acc hr
  | cons p pks ih =>
    intro r acc fuel hv hr hfuel
    obtain ⟨fuel, rfl⟩ : ∃ f, fuel = f + 1 := ⟨fuel - 1, by simp at hfuel; omega⟩
    obtain ⟨hplen, hp0, hp1, hpcs⟩ := hv p (List.mem_cons_self p pks)
    have hps2 : 2 ≤ getPacketSize st := two_le_getPacketSize st
    have hbuf : (p :: pks).flatten ++ r = p ++ (pks.flatten ++ r) := by
      rw [List.flatten_cons, List.append_assoc]
    rw [hbuf]
    have hlen : getPacketSize st ≤ (p ++ (pks.flatten ++ r)).length := by
      simp; omega
    have hg0 : (p ++ (pks.flatten ++ r)).getD 0 0 = st.syncByte1 := by
      rw [List.getD_append _ _ _ _ (by omega)]; exact hp0
    have hg1 : (p ++ (pks.flatten ++ r)).getD 1 0 = st.syncByte2 := by
      rw [List.getD_append _ _ _ _ (by omega)]; exact hp1
    rw [parseLoop, if_neg (by omega), findSync_zero st _ hg0 hg1]
    simp only [List.drop_zero]
    rw [if_neg (by omega),
      validateChecksum_append p _ (getPacketSize st) (by omega) (by omega), hpcs]
    simp only [Bool.not_true, Bool.and_false, Bool.false_eq_true, if_false]
    rw [decodePacket_append st p _ (le_trans (payload_le_getPacketSize st) (by omega)),
      List.drop_left' hplen,
      ih r (acc ++ [decodePacket st p]) fuel
        (fun q hq => hv q (List.mem_cons_of_mem p hq)) hr (by simp at hfuel; omega)]
    simp

/-- The extraction loop never needs more fuel than the buffer length: every
iteration consumes at least one byte.  This is the termination argument for
the C `while` loop. -/
lemma parseLoop_fuel_irrel (st : ParserState) :
    ∀ (k fuel₁ fuel₂ : Nat) (buffer : List Nat) (acc : List DataPacket),
      buffer.length ≤ k → buffer.length ≤ fuel₁ → buffer.length ≤ fuel₂ →
      parseLoop st fuel₁ buffer acc = parseLoop st fuel₂ buffer acc := by
  intro k
  induction k with
  | zero =>
    intro fuel₁ fuel₂ buffer acc hk _ _
    have hb : buffer.length < getPacketSize st := by
      have := two_le_getPacketSize st; omega
    rw [parseLoop_short st _ _ _ hb, parseLoop_short st _ _ _ hb]
  | succ k ih =>
    intro fuel₁ fuel₂ buffer acc hk h1 h2
    rcases Nat.lt_or_ge buffer.length (getPacketSize st) with hb | hb
    · rw [parseLoop_short st _ _ _ hb, parseLoop_short st _ _ _ hb]
    · have hps2 : 2 ≤ getPacketSize st := two_le_getPacketSize st
      obtain ⟨f₁, rfl⟩ : ∃ f, fuel₁ = f + 1 := ⟨fuel₁ - 1, by omega⟩
      obtain ⟨f₂, rfl⟩ : ∃ f, fuel₂ = f + 1 := ⟨fuel₂ - 1, by omega⟩
      rcases hfind : findSync st buffer (getPacketSize st) with _ | i
      · rw [parseLoop_succ_of_none st f₁ buffer acc hb hfind,
          parseLoop_succ_of_none st f₂ buffer acc hb hfind]
      · obtain ⟨hi, -, -⟩ := findSync_mem st buffer (getPacketSize st) i hb hfind
        rcases hcs : (st.useChecksum &&
            !validateChecksum (buffer.drop i) (getPacketSize st)) with _ | _
        · rw [parseLoop_succ_of_emit st f₁ buffer acc i hb hfind hi hcs,
            parseLoop_succ_of_emit st f₂ buffer acc i hb hfind hi hcs]
          apply ih <;> simp <;> omega
        · rw [parseLoop_succ_of_checksum_fail st f₁ buffer acc i hb hfind hi hcs,
            parseLoop_succ_of_checksum_fail st f₂ buffer acc i hb hfind hi hcs]
          apply ih <;> simp <;> omega

lemma parseLoop_irrelevant_buffer (st : ParserState) (b : List Nat) (fuel : Nat) :
    ∀ (buffer : List Nat) (acc : List DataPacket),
      parseLoop { st with buffer := b } fuel buffer acc = parseLoop st fuel buffer acc := by
  induction fuel with
  | zero => intro buffer acc; rfl
  | succ f ih =>
    intro buffer acc
    have h1 : getPacketSize { st with buffer := b } = getPacketSize st := rfl
    have h2 : ∀ (buf : List Nat) (ps : Nat),
        findSync { st with buffer := b } buf ps = findSync st buf ps := fun _ _ => rfl
    have h3 : ({ st with buffer := b } : ParserState).useChecksum = st.useChecksum := rfl
    have h4 : ∀ buf : List Nat,
        decodePacket { st with buffer := b } buf = decodePacket st buf := fun _ => rfl
    rw [parseLoop, parseLoop]
    simp only [h1, h2, h3, h4, ih]

lemma parse_setBuffer (st : ParserState) (b data : List Nat) :
    parse { st with buffer := b } data =
      ({ st with buffer :=
          (parseLoop st (appendCapped b data).length (appendCapped b data) []).1 },
        (parseLoop st (appendCapped b data).length (appendCapped b data) []).2) := by
  simp only [parse, parseLoop_irrelevant_buffer]

/-- Feeding the completing bytes of one valid packet one byte at a time: no
packet is emitted before the last byte arrives, and the packet is emitted,
with an empty buffer, exactly when it does. -/
lemma parseChunks_one_packet (st : ParserState)
    (hmax : getPacketSize st ≤ MAX_BUFFER_SIZE) (p : List Nat) (hp : ValidPacket st p) :
    ∀ (s : List Nat) (k : Nat) (rest : List (List Nat)),
      p.take k ++ s = p → k + s.length = getPacketSize st → 1 ≤ s.length →
      parseChunks { st with buffer := p.take k } ((s.map fun b => [b]) ++ rest) =
        ((parseChunks { st with buffer := [] } rest).1,
          decodePacket st p :: (parseChunks { st with buffer := [] } rest).2) := by
  intro s
  induction s with
  | nil => intro k rest _ _ hs; simp at hs
  | cons x s ih =>
    intro k rest hsplit hk hs
    obtain ⟨hplen, hp0, hp1, hpcs⟩ := hp
    have hps2 := two_le_getPacketSize st
    have hkp : (p.take k).length = k := by
      rw [List.length_take]
      omega
    have happ : appendCapped (p.take k) [x] = p.take k ++ [x] := by
      apply appendCapped_eq_append
      simp only [hkp, List.length_singleton]
      simp at hk
      omega
    rw [List.map_cons, List.cons_append, parseChunks, parse_setBuffer, happ]
    cases s with
    | nil =>
      -- x is the final byte of the packet
      have hfull : p.take k ++ [x] = p := hsplit
      rw [hfull]
      have hdrain := parseLoop_drain st [p] [] [] p.length
        (by intro q hq; simp at hq; subst hq; exact ⟨hplen, hp0, hp1, hpcs⟩)
        (by simp; omega) (by simp; omega)
      simp only [List.flatten_cons, List.flatten_nil, List.append_nil,
        List.nil_append, List.map_cons, List.map_nil] at hdrain
      rw [hdrain]
      simp only [List.map_nil, List.nil_append, parseChunks]
      rfl
    | cons y s2 =>
      have hlt : k + 1 + (y :: s2).length = getPacketSize st := by
        simp at hk ⊢
        omega
      have htake : p.take (k + 1) = p.take k ++ [x] := by
        conv_lhs => rw [← hsplit]
        rw [List.take_append_eq_append_take, List.take_of_length_le (by omega),
          hkp, Nat.add_sub_cancel_left, List.take_cons, List.take_zero]
        omega
      have hshort : parseLoop st (p.take k ++ [x]).length (p.take k ++ [x]) [] =
          (p.take k ++ [x], []) := by
        apply parseLoop_short
        simp only [List.length_append, hkp, List.length_singleton]
        simp at hk
        omega
      rw [hshort, ← htake]
      have := ih (k + 1) rest (by rw [htake, List.append_assoc]; exact hsplit) hlt
        (by simp only [List.length_cons]; omega)
      rw [this]
      simp

/-- Feeding a concatenation of valid packets one byte at a time yields
exactly the decoded packets, in order, ending with an empty buffer. -/
lemma parseChunks_bytewise (st : ParserState)
    (hmax : getPacketSize st ≤ MAX_BUFFER_SIZE) :
    ∀ pks : List (List Nat), (∀ q ∈ pks, ValidPacket st q) →
      parseChunks { st with buffer := [] } (pks.flatten.map fun b => [b]) =
        ({ st with buffer := [] }, pks.map (decodePacket st)) := by
  intro pks
  induction pks with
  | nil => intro _; rfl
  | cons p pks ih =>
    intro hv
    have hp := hv p (List.mem_cons_self p pks)
    have h1 := parseChunks_one_packet st hmax p hp p 0 ((pks.flatten).map fun b => [b])
      (by simp) (by simpa using hp.1)
      (by have h2 := two_le_getPacketSize st; rw [hp.1]; omega)
    rw [show (List.take 0 p : List Nat) = ([] : List Nat) from rfl] at h1
    rw [List.flatten_cons, List.map_append, h1,
      ih (fun q hq => hv q (List.mem_cons_of_mem p hq))]
    simp

/-! ### Bit-level lemmas for the sample decoder -/

lemma shiftLeft_lor_eq_add (a b i : Nat) (hb : b < 2 ^ i) :
    a <<< i ||| b = a * 2 ^ i + b := by
  rw [Nat.shiftLeft_eq, Nat.mul_comm a (2 ^ i), ← Nat.mul_add_lt_is_or hb a,
    Nat.mul_comm (2 ^ i) a]

lemma mul_pow_lor_eq_add (a b i : Nat) (hb : b < 2 ^ i) :
    a * 2 ^ i ||| b = a * 2 ^ i + b := by
  rw [Nat.mul_comm a (2 ^ i), ← Nat.mul_add_lt_is_or hb a, Nat.mul_comm (2 ^ i) a]

lemma assemble2 (n : Nat) (h : n < 65536) :
    (n / 256 % 256) <<< 8 ||| n % 256 = n := by
  rw [shiftLeft_lor_eq_add _ _ _ (by omega)]
  omega

lemma assemble3 (n : Nat) (h : n < 16777216) :
    (n / 65536 % 256) <<< 16 ||| (n / 256 % 256) <<< 8 ||| n % 256 = n := by
  rw [shiftLeft_lor_eq_add (n / 65536 % 256) ((n / 256 % 256) <<< 8) 16
    (by rw [Nat.shiftLeft_eq]; omega)]
  rw [Nat.shiftLeft_eq (n / 256 % 256) 8]
  rw [show n / 65536 % 256 * 2 ^ 16 + n / 256 % 256 * 2 ^ 8 =
    (n / 65536 % 256 * 2 ^ 8 + n / 256 % 256) * 2 ^ 8 from by ring]
  rw [mul_pow_lor_eq_add _ _ _ (by omega)]
  omega

lemma assemble4 (n : Nat) (h : n < 4294967296) :
    (n / 16777216 % 256) <<< 24 ||| (n / 65536 % 256) <<< 16 |||
      (n / 256 % 256) <<< 8 ||| n % 256 = n := by
  rw [shiftLeft_lor_eq_add (n / 16777216 % 256) ((n / 65536 % 256) <<< 16) 24
    (by rw [Nat.shiftLeft_eq]; omega)]
  rw [Nat.shiftLeft_eq (n / 65536 % 256) 16]
  rw [show n / 16777216 % 256 * 2 ^ 24 + n / 65536 % 256 * 2 ^ 16 =
    (n / 16777216 % 256 * 2 ^ 8 + n / 65536 % 256) * 2 ^ 16 from by ring]
  rw [mul_pow_lor_eq_add ((n / 16777216 % 256) * 2 ^ 8 + n / 65536 % 256)
    ((n / 256 % 256) <<< 8) 16 (by rw [Nat.shiftLeft_eq]; omega)]
  rw [Nat.shiftLeft_eq (n / 256 % 256) 8]
  rw [show (n / 16777216 % 256 * 2 ^ 8 + n / 65536 % 256) * 2 ^ 16 +
      n / 256 % 256 * 2 ^ 8 =
    ((n / 16777216 % 256 * 2 ^ 8 + n / 65536 % 256) * 2 ^ 8 + n / 256 % 256) * 2 ^ 8
      from by ring]
  rw [mul_pow_lor_eq_add _ _ _ (by omega)]
  omega

lemma and_two_pow_23 (n : Nat) (h : n < 2 ^ 24) :
    (n &&& 0x800000 ≠ 0) ↔ 2 ^ 23 ≤ n := by
  rw [show (0x800000 : Nat) = 2 ^ 23 from by norm_num, Nat.and_two_pow,
    Nat.testBit_to_div_mod]
  rcases Nat.lt_or_ge n (2 ^ 23) with hlt | hge
  · have hd : n / 2 ^ 23 % 2 = 0 := by omega
    simp [hd]
    omega
  · have hd : n / 2 ^ 23 % 2 = 1 := by omega
    simp [hd]
    omega

lemma lor_ff000000 (n : Nat) (h : n < 2 ^ 24) :
    n ||| 0xFF000000 = n + 0xFF000000 := by
  rw [Nat.lor_comm, show (0xFF000000 : Nat) = 255 * 2 ^ 24 from by norm_num,
    mul_pow_lor_eq_add _ _ _ h]
  omega

lemma and_two_pow_23_eq_zero (n : Nat) (h : n < 2 ^ 23) : n &&& 0x800000 = 0 := by
  rw [show (0x800000 : Nat) = 2 ^ 23 from by norm_num, Nat.and_two_pow,
    Nat.testBit_to_div_mod]
  have hd : n / 8388608 % 2 = 0 := by omega
  simp [hd]

lemma bytesToSample_two (scale : ℚ) (v : Int) (h1 : -(2 ^ 15) ≤ v) (h2 : v < 2 ^ 15) :
    bytesToSample (encodeBE v 2) 2 scale = (v : ℚ) * scale := by
  have hnn : (0 : Int) ≤ v % 2 ^ 16 := Int.emod_nonneg v (by norm_num)
  have hn : (((v % 2 ^ 16 : Int).toNat : Int)) = v % 2 ^ 16 := Int.toNat_of_nonneg hnn
  set n : Nat := (v % 2 ^ 16 : Int).toNat with hndef
  have hnlt : n < 65536 := by omega
  have hb : encodeBE v 2 = [n / 256 % 256, n % 256] := by
    unfold encodeBE
    rw [hndef]
    norm_num [List.range_succ]
  rw [hb]
  unfold bytesToSample
  rw [if_pos rfl]
  simp only [List.getD_cons_zero, List.getD_cons_succ]
  rw [assemble2 n hnlt]
  have hts : toSigned 16 n = v := by
    unfold toSigned
    rw [Nat.mod_eq_of_lt (by omega)]
    split <;> omega
  rw [hts]

lemma bytesToSample_three (scale : ℚ) (v : Int) (h1 : -(2 ^ 23) ≤ v) (h2 : v < 2 ^ 23) :
    bytesToSample (encodeBE v 3) 3 scale = (v : ℚ) * scale := by
  have hnn : (0 : Int) ≤ v % 2 ^ 24 := Int.emod_nonneg v (by norm_num)
  have hn : (((v % 2 ^ 24 : Int).toNat : Int)) = v % 2 ^ 24 := Int.toNat_of_nonneg hnn
  set n : Nat := (v % 2 ^ 24 : Int).toNat with hndef
  have hnlt : n < 16777216 := by omega
  have hb : encodeBE v 3 = [n / 65536 % 256, n / 256 % 256, n % 256] := by
    unfold encodeBE
    rw [hndef]
    norm_num [List.range_succ]
  rw [hb]
  unfold bytesToSample
  rw [if_neg (by norm_num), if_pos rfl]
  simp only [List.getD_cons_zero, List.getD_cons_succ]
  rw [assemble3 n hnlt]
  rcases Nat.lt_or_ge n (2 ^ 23) with hlt | hge
  · rw [if_neg (by simp [and_two_pow_23_eq_zero n hlt])]
    have hts : toSigned 32 n = v := by
      unfold toSigned
      rw [Nat.mod_eq_of_lt (by omega)]
      split <;> omega
    rw [hts]
  · rw [if_pos ((and_two_pow_23 n (by omega)).mpr hge), lor_ff000000 n (by omega)]
    have hts : toSigned 32 (n + 0xFF000000) = v := by
      unfold toSigned
      rw [Nat.mod_eq_of_lt (by omega)]
      split <;> omega
    rw [hts]

lemma bytesToSample_four (scale : ℚ) (v : Int) (h1 : -(2 ^ 31) ≤ v) (h2 : v < 2 ^ 31) :
    bytesToSample (encodeBE v 4) 4 scale = (v : ℚ) * scale := by
  have hnn : (0 : Int) ≤ v % 2 ^ 32 := Int.emod_nonneg v (by norm_num)
  have hn : (((v % 2 ^ 32 : Int).toNat : Int)) = v % 2 ^ 32 := Int.toNat_of_nonneg hnn
  set n : Nat := (v % 2 ^ 32 : Int).toNat with hndef
  have hnlt : n < 4294967296 := by omega
  have hb : encodeBE v 4 =
      [n / 16777216 % 256, n / 65536 % 256, n / 256 % 256, n % 256] := by
    unfold encodeBE
    rw [hndef]
    norm_num [List.range_succ]
  rw [hb]
  unfold bytesToSample
  rw [if_neg (by norm_num), if_neg (by norm_num), if_pos rfl]
  simp only [List.getD_cons_zero, List.getD_cons_succ]
  rw [assemble4 n hnlt]
  have hts : toSigned 32 n = v := by
    unfold toSigned
    rw [Nat.mod_eq_of_lt (by omega)]
    split <;> omega
  rw [hts]

lemma bytesToSample_default (bytes : List Nat) (w : Nat) (scale : ℚ)
    (h2 : w ≠ 2) (h3 : w ≠ 3) (h4 : w ≠ 4) : bytesToSample bytes w scale = 0 := by
  unfold bytesToSample
  rw [if_neg h2, if_neg h3, if_neg h4]

/-! ### Lemmas about acquisition timestamping -/


lemma runAcquisition_nil (r : ℚ) (st : AcqState) : runAcquisition r st [] = (st, []) := rfl

lemma runAcquisition_cons (r : ℚ) (st : AcqState) (n : Nat) (rest : List Nat) :
    runAcquisition r st (n :: rest) =
      ((runAcquisition r (updateBufferPublish r st n).1 rest).1,
        (updateBufferPublish r st n).2 ++
          (runAcquisition r (updateBufferPublish r st n).1 rest).2) := rfl

lemma publishFold_anchor (r : ℚ) (t : Nat) :
    ∀ n : Nat,
      (List.range n).foldl
        (fun acc i =>
          let step := publishOne r acc.1 i
          (step.1, acc.2 ++ [step.2]))
        (anchorState t, []) =
      ({ totalSamples := t, initialTimestamp := if t = 0 ∧ n = 0 then -1 else 0 },
        (List.range n).map fun i => (t + i, ((t + i : Nat) : ℚ) / r)) := by
  intro n
  induction n with
  | zero =>
    simp [anchorState]
  | succ n ih =>
    rw [List.range_succ, List.foldl_append, ih]
    simp only [List.foldl_cons, List.foldl_nil]
    rw [List.map_append]
    by_cases hA : t = 0 ∧ n = 0
    · obtain ⟨rfl, rfl⟩ := hA
      rw [if_pos (And.intro rfl rfl), if_neg (by omega)]
      unfold publishOne
      norm_num
    · rw [if_neg hA, if_neg (by omega)]
      unfold publishOne
      norm_num

lemma updateBufferPublish_anchor (r : ℚ) (t n : Nat) :
    updateBufferPublish r (anchorState t) n =
      (anchorState (t + n),
        (List.range n).map fun i => (t + i, ((t + i : Nat) : ℚ) / r)) := by
  unfold updateBufferPublish
  rw [publishFold_anchor r t n]
  simp only [anchorState, Prod.mk.injEq, AcqState.mk.injEq, true_and, and_true]
  split_ifs with hA hB hB
  · rfl
  · omega
  · omega
  · rfl

lemma runAcquisition_anchor (r : ℚ) :
    ∀ (calls : List Nat) (t : Nat),
      runAcquisition r (anchorState t) calls =
        (anchorState (t + calls.sum),
          (List.range' t calls.sum).map fun k => ((k, (k : ℚ) / r) : Nat × ℚ)) := by
  intro calls
  induction calls with
  | nil =>
    intro t
    rw [runAcquisition_nil]
    simp
  | cons n rest ih =>
    intro t
    rw [runAcquisition_cons, updateBufferPublish_anchor]
    simp only [ih]
    rw [show t + n + rest.sum = t + (n :: rest).sum from by simp; omega]
    rw [show (n :: rest).sum = n + rest.sum from by simp]
    rw [show n + rest.sum = rest.sum + n from by omega,
      ← List.range'_append_1 t n rest.sum, List.map_append,
      List.range'_eq_map_range t n, List.map_map]
    rfl


lemma decodePacket_valid (st : ParserState) (b : List Nat) :
    (decodePacket st b).valid = true := rfl

lemma length_le_flatten (st : ParserState) (pks : List (List Nat))
    (hv : ∀ q ∈ pks, ValidPacket st q) : pks.length ≤ pks.flatten.length := by
  induction pks with
  | nil => simp
  | cons q pks ih =>
    simp only [List.flatten_cons, List.length_append, List.length_cons]
    have hq := (hv q (List.mem_cons_self q pks)).1
    have h2 := two_le_getPacketSize st
    have h3 := ih (fun p hp => hv p (List.mem_cons_of_mem q hp))
    omega

/-- Feeding a concatenation of valid packets in a single `parse` call yields
exactly the decoded packets, in order, and empties the buffer. -/
lemma parse_valid_stream (st : ParserState) (pks : List (List Nat))
    (hbuf : st.buffer = []) (hmax : pks.flatten.length ≤ MAX_BUFFER_SIZE)
    (hv : ∀ q ∈ pks, ValidPacket st q) :
    parse st pks.flatten = ({ st with buffer := [] }, pks.map (decodePacket st)) := by
  have happ : appendCapped st.buffer pks.flatten = pks.flatten := by
    rw [hbuf]
    simpa using appendCapped_eq_append [] pks.flatten (by simpa using hmax)
  have hdrain := parseLoop_drain st pks [] [] pks.flatten.length hv
    (by have := two_le_getPacketSize st; simp; omega)
    (length_le_flatten st pks hv)
  simp only [List.append_nil, List.nil_append] at hdrain
  simp only [parse, happ, hdrain]

lemma findSync_garbage (st : ParserState) (g : Nat) (p : List Nat)
    (hplen : p.length = getPacketSize st)
    (hp0 : p.getD 0 0 = st.syncByte1) (hp1 : p.getD 1 0 = st.syncByte2)
    (hA : ¬ (g = st.syncByte1 ∧ st.syncByte1 = st.syncByte2)) :
    findSync st (g :: p) (getPacketSize st) = some 1 := by
  unfold findSync
  have h2 : (g :: p).length - getPacketSize st + 1 = 2 := by
    simp only [List.length_cons, hplen]
    omega
  have e0 : (g == st.syncByte1 && p.getD 0 0 == st.syncByte2) = false := by
    by_cases hg : g = st.syncByte1
    · have hs : ¬ st.syncByte1 = st.syncByte2 := fun hs => hA ⟨hg, hs⟩
      rw [hg, hp0]
      simp [hs]
    · simp [hg]
  rw [h2, show List.range 2 = [0, 1] from rfl]
  simp only [List.find?_cons, List.getD_cons_zero, List.getD_cons_succ]
  rw [e0, hp0, hp1]
  simp

lemma parse_preserves_cap (st : ParserState) (data : List Nat)
    (h : st.buffer.length ≤ MAX_BUFFER_SIZE) :
    (parse st data).1.buffer.length ≤ MAX_BUFFER_SIZE := by
  simp only [parse]
  exact le_trans (parseLoop_buffer_length_le st _ _ _) (appendCapped_length_le _ _ h)

lemma parseChunks_preserves_cap (st : ParserState) (chunks : List (List Nat))
    (h : st.buffer.length ≤ MAX_BUFFER_SIZE) :
    (parseChunks st chunks).1.buffer.length ≤ MAX_BUFFER_SIZE := by
  induction chunks generalizing st with
  | nil => exact h
  | cons c rest ih =>
    rw [parseChunks]
    exact ih (parse st c).1 (parse_preserves_cap st c h)

lemma getPacketSize_le_1027 (st : ParserState)
    (h2 : st.numChannels ≤ 256) (hb : st.bytesPerSample ≤ 4) :
    getPacketSize st ≤ 1027 := by
  have hm : st.numChannels * st.bytesPerSample ≤ 256 * 4 := Nat.mul_le_mul h2 hb
  cases hu : st.useChecksum <;> simp [getPacketSize, hu] <;> omega

/-! ### Claims -/

/-- C1, counterexample: fragmentation invariance fails on the code as stated.
With one channel of 16-bit samples (packet size 5) and the stream
`00 A0 5A 00 01 FB` (one garbage byte, then one valid packet), a single
`parse` call yields the packet, but feeding the same bytes one at a time
yields nothing: when the buffer reaches 5 bytes `00 A0 5A 00 01` the sync
search (which requires a full packet from the sync position) fails and the
no-sync path keeps only the last 2 bytes `00 01`, discarding the sync
marker, so the packet is lost. -/
theorem parse_fragmentation_counterexample :
    (parse oneChannelParser [0x00, 0xA0, 0x5A, 0x00, 0x01, 0xFB]).2.length = 1 ∧
    (parseChunks oneChannelParser
      ([0x00, 0xA0, 0x5A, 0x00, 0x01, 0xFB].map fun b => [b])).2.length = 0 := by
  decide

/-- C1, amended: fragmentation invariance holds for streams that are
concatenations of complete valid packets (and fit the retention cap):
feeding such a stream in one `parse` call and feeding it one byte at a time
both yield exactly the decoded packets, in order — hence identical
`DecodedPacket` sequences. -/
theorem parse_fragmentation_invariance_on_packet_streams (st : ParserState)
    (pks : List (List Nat)) (hbuf : st.buffer = [])
    (hmax : pks.flatten.length + getPacketSize st ≤ MAX_BUFFER_SIZE)
    (hv : ∀ q ∈ pks, ValidPacket st q) :
    (parse st pks.flatten).2 = pks.map (decodePacket st) ∧
    (parseChunks st (pks.flatten.map fun b => [b])).2 = pks.map (decodePacket st) := by
  have hst : ({ st with buffer := [] } : ParserState) = st := by rw [← hbuf]
  constructor
  · rw [parse_valid_stream st pks hbuf (by omega) hv]
  · have h := parseChunks_bytewise st (by omega) pks hv
    rw [hst] at h
    rw [h]

/-- C1 amended, witness: two valid one-channel packets `A0 5A 00 01 FB` and
`A0 5A 00 02 F8`; both feeding disciplines yield the two decoded packets. -/
theorem parse_fragmentation_invariance_witness :
    (parse oneChannelParser
        [[0xA0, 0x5A, 0x00, 0x01, 0xFB], [0xA0, 0x5A, 0x00, 0x02, 0xF8]].flatten).2 =
      [[0xA0, 0x5A, 0x00, 0x01, 0xFB], [0xA0, 0x5A, 0x00, 0x02, 0xF8]].map
        (decodePacket oneChannelParser) ∧
    (parseChunks oneChannelParser
        ([[0xA0, 0x5A, 0x00, 0x01, 0xFB],
          [0xA0, 0x5A, 0x00, 0x02, 0xF8]].flatten.map fun b => [b])).2 =
      [[0xA0, 0x5A, 0x00, 0x01, 0xFB], [0xA0, 0x5A, 0x00, 0x02, 0xF8]].map
        (decodePacket oneChannelParser) :=
  parse_fragmentation_invariance_on_packet_streams oneChannelParser
    [[0xA0, 0x5A, 0x00, 0x01, 0xFB], [0xA0, 0x5A, 0x00, 0x02, 0xF8]]
    rfl (by decide) (by decide)

/-- C2: when the `packetSize` bytes at a found sync position fail the XOR
checksum, `parse`'s loop removes exactly one leading byte and re-runs
synchronization on the remainder (the return type carries no error channel,
so nothing is surfaced); and on the spec's example — corrupt packet
`A0 5A 00 0A 00 14 FF` followed by correct packet `A0 5A 00 01 00 02 F9`
(two channels, 16-bit, unit scale) — parse yields only the second packet. -/
theorem checksum_failure_single_byte_retry :
    (∀ (st : ParserState) (fuel : Nat) (buffer : List Nat) (acc : List DataPacket),
      st.useChecksum = true →
      getPacketSize st ≤ buffer.length →
      buffer.getD 0 0 = st.syncByte1 →
      buffer.getD 1 0 = st.syncByte2 →
      validateChecksum buffer (getPacketSize st) = false →
      parseLoop st (fuel + 1) buffer acc = parseLoop st fuel (buffer.drop 1) acc) ∧
    (parse twoChannelParser
        [0xA0, 0x5A, 0x00, 0x0A, 0x00, 0x14, 0xFF,
         0xA0, 0x5A, 0x00, 0x01, 0x00, 0x02, 0xF9]).2 =
      [decodePacket twoChannelParser [0xA0, 0x5A, 0x00, 0x01, 0x00, 0x02, 0xF9]] := by
  constructor
  · intro st fuel buffer acc huse hlen h0 h1 hcs
    have h := parseLoop_succ_of_checksum_fail st fuel buffer acc 0 hlen
      (findSync_zero st buffer h0 h1) (by omega) (by simp [hcs, huse])
    simpa using h
  · rfl

/-- C2, witness: the retry equation applied to the corrupt window
`A0 5A 00 0A 00 14 FF` of the two-channel configuration. -/
theorem checksum_failure_single_byte_retry_witness :
    parseLoop twoChannelParser 1 [0xA0, 0x5A, 0x00, 0x0A, 0x00, 0x14, 0xFF] [] =
      parseLoop twoChannelParser 0
        ([0xA0, 0x5A, 0x00, 0x0A, 0x00, 0x14, 0xFF].drop 1) [] :=
  checksum_failure_single_byte_retry.1 twoChannelParser 0
    [0xA0, 0x5A, 0x00, 0x0A, 0x00, 0x14, 0xFF] [] rfl (by decide) (by decide)
    (by decide) (by decide)

/-- C3: one garbage byte followed by one complete valid packet, fed into an
empty buffer, yields exactly one `DecodedPacket` (marked valid); at most one
byte remains buffered, so no more than `packetSize + 1` bytes of the
`packetSize + 1`-byte stream are consumed. -/
theorem resync_after_one_garbage_byte (st : ParserState) (g : Nat) (p : List Nat)
    (hbuf : st.buffer = [])
    (hch1 : 1 ≤ st.numChannels) (hch2 : st.numChannels ≤ 256)
    (hbps : st.bytesPerSample = 2 ∨ st.bytesPerSample = 3 ∨ st.bytesPerSample = 4)
    (hp : ValidPacket st p) :
    (parse st (g :: p)).2.length = 1 ∧
    (∀ pk ∈ (parse st (g :: p)).2, pk.valid = true) ∧
    (parse st (g :: p)).1.buffer.length ≤ 1 ∧
    (g :: p).length - (parse st (g :: p)).1.buffer.length ≤ getPacketSize st + 1 := by
  obtain ⟨hplen, hp0, hp1, hpcs⟩ := hp
  have hps2 := two_le_getPacketSize st
  have hpsmax : getPacketSize st ≤ 1027 :=
    getPacketSize_le_1027 st hch2 (by rcases hbps with h | h | h <;> omega)
  have hM : MAX_BUFFER_SIZE = 65536 := rfl
  have happ : appendCapped st.buffer (g :: p) = g :: p := by
    rw [hbuf]
    simpa using appendCapped_eq_append [] (g :: p)
      (by simp only [List.length_nil, List.length_cons, hplen]; omega)
  have hlen : (g :: p).length = getPacketSize st + 1 := by simp [hplen]
  have hR : (parseLoop st (g :: p).length (g :: p) []).2.length = 1 ∧
      (∀ pk ∈ (parseLoop st (g :: p).length (g :: p) []).2, pk.valid = true) ∧
      (parseLoop st (g :: p).length (g :: p) []).1.length ≤ 1 := by
    by_cases hA : g = st.syncByte1 ∧ st.syncByte1 = st.syncByte2
    · have hfind : findSync st (g :: p) (getPacketSize st) = some 0 :=
        findSync_zero st (g :: p) (by simpa using hA.1)
          (by simpa using hp0.trans hA.2)
      rcases hW : (st.useChecksum &&
          !validateChecksum ((g :: p).drop 0) (getPacketSize st)) with _ | _
      · rw [hlen, parseLoop_succ_of_emit st (getPacketSize st) (g :: p) [] 0
          (by omega) hfind (by omega) hW]
        rw [parseLoop_short st _ _ _
          (by simp only [List.drop_zero, List.length_drop, List.length_cons, hplen]; omega)]
        refine ⟨by simp, by simp [decodePacket_valid], ?_⟩
        simp only [List.drop_zero, List.length_drop, List.length_cons, hplen]
        omega
      · rw [hlen, parseLoop_succ_of_checksum_fail st (getPacketSize st) (g :: p) [] 0
          (by omega) hfind (by omega) hW]
        rw [show ((g :: p).drop 0).drop 1 = p from rfl]
        have hdrain := parseLoop_drain st [p] [] [] (getPacketSize st)
          (by intro q hq; simp at hq; subst hq; exact ⟨hplen, hp0, hp1, hpcs⟩)
          (by simp; omega) (by simp; omega)
        simp only [List.flatten_cons, List.flatten_nil, List.append_nil,
          List.nil_append, List.map_cons, List.map_nil] at hdrain
        rw [hdrain]
        exact ⟨by simp, by simp [decodePacket_valid], by simp⟩
    · have hfind := findSync_garbage st g p hplen hp0 hp1 hA
      have hcs : (st.useChecksum &&
          !validateChecksum ((g :: p).drop 1) (getPacketSize st)) = false := by
        rw [show (g :: p).drop 1 = p from rfl, hpcs]
        simp
      rw [hlen, parseLoop_succ_of_emit st (getPacketSize st) (g :: p) [] 1
        (by omega) hfind (by simp only [List.length_cons, hplen]; omega) hcs]
      rw [show (g :: p).drop 1 = p from rfl,
        show p.drop (getPacketSize st) = ([] : List Nat) from by
          rw [← hplen]; exact List.drop_length p]
      rw [parseLoop_short st _ _ _ (by simp only [List.length_nil]; omega)]
      exact ⟨by simp, by simp [decodePacket_valid], by simp⟩
  simp only [parse, happ]
  refine ⟨hR.1, hR.2.1, hR.2.2, by omega⟩

/-- C3, witness: garbage byte `FF` before the one-channel packet
`A0 5A 00 01 FB`. -/
theorem resync_after_one_garbage_byte_witness :
    (parse oneChannelParser (0xFF :: [0xA0, 0x5A, 0x00, 0x01, 0xFB])).2.length = 1 ∧
    (∀ pk ∈ (parse oneChannelParser (0xFF :: [0xA0, 0x5A, 0x00, 0x01, 0xFB])).2,
      pk.valid = true) ∧
    (parse oneChannelParser (0xFF :: [0xA0, 0x5A, 0x00, 0x01, 0xFB])).1.buffer.length ≤ 1 ∧
    (0xFF :: [0xA0, 0x5A, 0x00, 0x01, 0xFB]).length -
        (parse oneChannelParser
          (0xFF :: [0xA0, 0x5A, 0x00, 0x01, 0xFB])).1.buffer.length ≤
      getPacketSize oneChannelParser + 1 :=
  resync_after_one_garbage_byte oneChannelParser 0xFF [0xA0, 0x5A, 0x00, 0x01, 0xFB]
    rfl (by decide) (by decide) (by decide) (by decide)

/-- C4: `parse` terminates on every finite input — the extraction loop needs
no more fuel than the buffer length, because every iteration consumes at
least one byte, so running it with any sufficient fuel gives the same
result as the canonical run; and on a stream whose first packet-sized
window starts with a false sync (`A0 5A A0 5A 01`, checksum fails) followed
by a checksum-correct packet `A0 5A 00 01 FB`, all false starts are
exhausted and the later valid packet is still produced. -/
theorem parse_never_livelocks :
    (∀ (st : ParserState) (fuel : Nat) (buffer : List Nat) (acc : List DataPacket),
      buffer.length ≤ fuel →
      parseLoop st fuel buffer acc = parseLoop st buffer.length buffer acc) ∧
    (parse oneChannelParser
        [0xA0, 0x5A, 0xA0, 0x5A, 0x01, 0xA0, 0x5A, 0x00, 0x01, 0xFB]).2 =
      [decodePacket oneChannelParser [0xA0, 0x5A, 0x00, 0x01, 0xFB]] := by
  constructor
  · intro st fuel buffer acc h
    exact parseLoop_fuel_irrel st buffer.length fuel buffer.length buffer acc
      le_rfl h le_rfl
  · rfl

/-- C4, witness: with surplus fuel 12 the loop computes the same result as
with fuel equal to the buffer length. -/
theorem parse_never_livelocks_witness :
    parseLoop oneChannelParser 12 [0xA0, 0x5A, 0x00] [] =
      parseLoop oneChannelParser 3 [0xA0, 0x5A, 0x00] [] :=
  parse_never_livelocks.1 oneChannelParser 12 [0xA0, 0x5A, 0x00] [] (by decide)

/-- C5: decoding the `width`-byte big-endian two's-complement encoding of any
in-range signed value (including the most negative one) returns
`value × scaleFactor` exactly, for `width ∈ {2, 3, 4}`; every other width
decodes to 0 (and the decoder is a total function — it never throws). -/
theorem bytesToSample_roundtrip (scale : ℚ) :
    (∀ v : Int, -(2 ^ 15) ≤ v → v < 2 ^ 15 →
      bytesToSample (encodeBE v 2) 2 scale = (v : ℚ) * scale) ∧
    (∀ v : Int, -(2 ^ 23) ≤ v → v < 2 ^ 23 →
      bytesToSample (encodeBE v 3) 3 scale = (v : ℚ) * scale) ∧
    (∀ v : Int, -(2 ^ 31) ≤ v → v < 2 ^ 31 →
      bytesToSample (encodeBE v 4) 4 scale = (v : ℚ) * scale) ∧
    (∀ (bytes : List Nat) (w : Nat), w ≠ 2 → w ≠ 3 → w ≠ 4 →
      bytesToSample bytes w scale = 0) :=
  ⟨fun v h1 h2 => bytesToSample_two scale v h1 h2,
   fun v h1 h2 => bytesToSample_three scale v h1 h2,
   fun v h1 h2 => bytesToSample_four scale v h1 h2,
   fun bytes w h2 h3 h4 => bytesToSample_default bytes w scale h2 h3 h4⟩

/-- C5, witness: the most-negative values of each width at unit scale, and a
width-5 decode. -/
theorem bytesToSample_roundtrip_witness :
    bytesToSample (encodeBE (-32768) 2) 2 1 = ((-32768 : Int) : ℚ) * 1 ∧
    bytesToSample (encodeBE (-8388608) 3) 3 1 = ((-8388608 : Int) : ℚ) * 1 ∧
    bytesToSample (encodeBE (-2147483648) 4) 4 1 = ((-2147483648 : Int) : ℚ) * 1 ∧
    bytesToSample [1, 2, 3] 5 1 = 0 :=
  ⟨(bytesToSample_roundtrip 1).1 (-32768) (by decide) (by decide),
   (bytesToSample_roundtrip 1).2.1 (-8388608) (by decide) (by decide),
   (bytesToSample_roundtrip 1).2.2.1 (-2147483648) (by decide) (by decide),
   (bytesToSample_roundtrip 1).2.2.2 [1, 2, 3] 5 (by decide) (by decide) (by decide)⟩

/-- C6: for every valid configuration, `getPacketSize` equals
`2 + channels × bytesPerSample + (1 if checksum else 0)`. -/
theorem getPacketSize_formula (st : ParserState)
    (h1 : 1 ≤ st.numChannels) (h2 : st.numChannels ≤ 256)
    (h3 : st.bytesPerSample = 2 ∨ st.bytesPerSample = 3 ∨ st.bytesPerSample = 4) :
    getPacketSize st =
      2 + st.numChannels * st.bytesPerSample +
        (if st.useChecksum then 1 else 0) := rfl

/-- C6, witness: the default configuration (8 channels, 2 bytes, checksum). -/
theorem getPacketSize_formula_witness :
    getPacketSize initialParser =
      2 + initialParser.numChannels * initialParser.bytesPerSample +
        (if initialParser.useChecksum then 1 else 0) :=
  getPacketSize_formula initialParser (by decide) (by decide) (by decide)

/-- C7: the frame buffer never exceeds `MAX_BUFFER_SIZE` (65536) after any
sequence of `parse` calls, and the append phase is a bounded FIFO: the
retained bytes are exactly the last `MAX_BUFFER_SIZE` of the old buffer
followed by the new data — oldest bytes are discarded first. -/
theorem frame_buffer_bounded (st : ParserState) (chunks : List (List Nat))
    (data : List Nat) (h : st.buffer.length ≤ MAX_BUFFER_SIZE) :
    (parseChunks st chunks).1.buffer.length ≤ MAX_BUFFER_SIZE ∧
    appendCapped st.buffer data =
      (st.buffer ++ data).drop (st.buffer.length + data.length - MAX_BUFFER_SIZE) :=
  ⟨parseChunks_preserves_cap st chunks h, appendCapped_fifo st.buffer data h⟩

/-- C7, witness: a fresh parser fed two chunks of garbage. -/
theorem frame_buffer_bounded_witness :
    (parseChunks initialParser [[1, 2, 3], [4, 5]]).1.buffer.length ≤ MAX_BUFFER_SIZE ∧
    appendCapped initialParser.buffer [9, 9] =
      (initialParser.buffer ++ [9, 9]).drop
        (initialParser.buffer.length + [9, 9].length - MAX_BUFFER_SIZE) :=
  frame_buffer_bounded initialParser [[1, 2, 3], [4, 5]] [9, 9] (by decide)

/-- C8, counterexample: the claim says the no-sync path trims the buffer to
its last 1 byte (or fewer), but the code keeps the last 2 bytes
(`buffer.erase(buffer.begin(), buffer.end() - 2)`): five zero bytes with a
one-channel configuration (packet size 5) contain no sync, and the buffer
afterwards is `[0, 0]`, of length 2 > 1. -/
theorem no_sync_retention_counterexample :
    (parse oneChannelParser [0, 0, 0, 0, 0]).1.buffer = [0, 0] ∧
    ¬ ((parse oneChannelParser [0, 0, 0, 0, 0]).1.buffer.length ≤ 1) := by
  decide

/-- C8, amended: when the appended buffer holds at least `packetSize` bytes
but synchronization finds no admissible position, `parse` trims the buffer
to its last 2 bytes before returning. -/
theorem no_sync_retention (st : ParserState) (data : List Nat)
    (h3 : 3 ≤ getPacketSize st)
    (hlen : getPacketSize st ≤ (appendCapped st.buffer data).length)
    (hfind : findSync st (appendCapped st.buffer data) (getPacketSize st) = none) :
    (parse st data).1.buffer =
      (appendCapped st.buffer data).drop ((appendCapped st.buffer data).length - 2) ∧
    (parse st data).1.buffer.length = 2 := by
  obtain ⟨f, hf⟩ : ∃ f, (appendCapped st.buffer data).length = f + 1 :=
    ⟨(appendCapped st.buffer data).length - 1, by omega⟩
  simp only [parse]
  rw [hf, parseLoop_succ_of_none st f (appendCapped st.buffer data) [] (by omega) hfind,
    if_pos (by omega)]
  constructor
  · rw [hf]
  · simp only [List.length_drop]
    omega

/-- C8 amended, witness: five zero bytes on the one-channel configuration
leave exactly the last two bytes. -/
theorem no_sync_retention_witness :
    (parse oneChannelParser [0, 0, 0, 0, 0]).1.buffer =
      (appendCapped oneChannelParser.buffer [0, 0, 0, 0, 0]).drop
        ((appendCapped oneChannelParser.buffer [0, 0, 0, 0, 0]).length - 2) ∧
    (parse oneChannelParser [0, 0, 0, 0, 0]).1.buffer.length = 2 :=
  no_sync_retention oneChannelParser [0, 0, 0, 0, 0] (by decide) (by decide) (by decide)

/-- C9: starting from `startAcquisition` (sample counter reset, anchor
sentinel `-1`), the sequence published across any run of `updateBuffer`
calls is exactly `(k, k / sampleRate)` for `k = 0, 1, 2, …` — sample
indices increase monotonically, every session-relative timestamp equals
`sampleIndex / configuredSampleRate`, and the first published sample has
relative timestamp `0 / sampleRate = 0`. -/
theorem acquisition_sample_indices_and_timestamps (st0 : AcqState) (r : ℚ)
    (hr : 0 < r) (calls : List Nat) :
    (runAcquisition r (startAcquisition st0) calls).2 =
      (List.range calls.sum).map fun k => ((k, (k : ℚ) / r) : Nat × ℚ) := by
  have h0 : startAcquisition st0 = anchorState 0 := by
    unfold startAcquisition anchorState
    norm_num
  rw [h0, runAcquisition_anchor r calls 0]
  rw [show (List.range' 0 calls.sum) = List.range calls.sum from
    (List.range_eq_range' calls.sum).symm]

/-- C9, witness: two `updateBuffer` calls of 2 and 3 packets at 256 Hz. -/
theorem acquisition_sample_indices_and_timestamps_witness :
    (runAcquisition 256 (startAcquisition { totalSamples := 7, initialTimestamp := 3 })
        [2, 3]).2 =
      (List.range ([2, 3] : List Nat).sum).map fun k => ((k, (k : ℚ) / 256) : Nat × ℚ) :=
  acquisition_sample_indices_and_timestamps { totalSamples := 7, initialTimestamp := 3 }
    256 (by decide) [2, 3]

/-- C10: no `ProtocolParser` operation touches the checksum flag — a fresh
parser has `useChecksum = true`, and `configure`, `setSyncBytes`, `reset`
and `parse` all leave it unchanged, so checksum validation can never be
disabled and every aligned candidate window is checksum-validated. -/
theorem useChecksum_never_disabled (st : ParserState) (channels bytes s1 s2 : Nat)
    (scale : ℚ) (data : List Nat) :
    initialParser.useChecksum = true ∧
    (configure st channels bytes scale).useChecksum = st.useChecksum ∧
    (setSyncBytes st s1 s2).useChecksum = st.useChecksum ∧
    (reset st).useChecksum = st.useChecksum ∧
    (parse st data).1.useChecksum = st.useChecksum :=
  ⟨rfl, rfl, rfl, rfl, rfl⟩

end CustomIC
